import Mathlib

/-!
Verification of the Coral Spectrum Masonry engine: a shallow embedding of the
selection validator, change-event emitter, layout scheduler, layout setter,
drag-reorder handlers (`Masonry.js`) and of the sibling walks and bulk
deselection of `SelectableCollection.js`, with theorems about their behaviour.

Conventions of the embedding:
* DOM elements are identified by their index in (or, for drag reordering, by a
  numeric id inside) the host's ordered child list.
* Machine floats of the source are modelled as rationals.  The source compares
  `Math.sqrt` of two non-negative expressions; since the square root is
  monotone on non-negative reals, the embedding compares the radicands
  (`weightedDistanceSq`) directly, which decides exactly the same comparisons.
* Host-environment services (layout-strategy hit tests, item filters) are
  passed in as function parameters.
-/

namespace CoralSpec

/-! ### SelectableCollection: sibling walks (`_getPreviousSelectable` / `_getNextSelectable`) -/

/-- One direct child of the collection host, as seen by the sibling walks of
`SelectableCollection`: whether it matches the base item selector and whether
it carries the `disabled` attribute. -/
structure SElem where
  isItem : Bool
  disabled : Bool
  deriving DecidableEq, Inhabited

/-- Embeds `_selectableItemSelector`: the base item selector with
`:not([disabled])` appended, i.e. an item that is not disabled. -/
def matchesSelectable (e : SElem) : Bool :=
  e.isItem && !e.disabled

/-- The `previousElementSibling` walk of `_getPreviousSelectable`: starting at
the sibling just before index `k`, walk towards the front and return the first
index matching `_selectableItemSelector`, or `none` when the walk exhausts. -/
def prevSelectableIdx (children : List SElem) : Nat → Option Nat
  | 0 => none
  | j + 1 =>
    if matchesSelectable (children.getD j default) then some j
    else prevSelectableIdx children j

/-- Embeds `_getPreviousSelectable`: the walk result, clamped to the input
item by the source's `return sibling || item`. -/
def getPreviousSelectable (children : List SElem) (k : Nat) : Nat :=
  (prevSelectableIdx children k).getD k

/-- The `nextElementSibling` walk over a suffix of the child list: the first
index (counting from `base`) whose element matches the selectable selector. -/
def firstSelectableFrom : List SElem → Nat → Option Nat
  | [], _ => none
  | e :: rest, base =>
    if matchesSelectable e then some base else firstSelectableFrom rest (base + 1)

/-- The `nextElementSibling` walk of `_getNextSelectable`, starting just after
index `k`. -/
def nextSelectableIdx (children : List SElem) (k : Nat) : Option Nat :=
  firstSelectableFrom (children.drop (k + 1)) (k + 1)

/-- Embeds `_getNextSelectable`: the walk result, clamped to the input item by
the source's `return sibling || item`. -/
def getNextSelectable (children : List SElem) (k : Nat) : Nat :=
  (nextSelectableIdx children k).getD k

/-! ### Masonry layout scheduler (`_scheduleLayout` and its frame callback) -/

/-- The scheduler-relevant fields of a `Masonry` instance together with two
observers: how many `requestAnimationFrame` callbacks are currently
registered, and how many layout passes (`_doLayout` invocations from the frame
callback) have run. -/
structure SchedulerState where
  forceDebounce : Bool
  layoutScheduled : Bool
  pendingFrameCallbacks : Nat
  layoutPasses : Nat
  deriving DecidableEq

/-- Embeds `_scheduleLayout`: when neither `_forceDebounce` nor
`_layoutScheduled` is set, register one frame callback and set
`_layoutScheduled`; otherwise do nothing. -/
def scheduleLayout (s : SchedulerState) : SchedulerState :=
  if !s.forceDebounce && !s.layoutScheduled then
    { s with
      pendingFrameCallbacks := s.pendingFrameCallbacks + 1
      layoutScheduled := true }
  else s

/-- Embeds one registered frame callback firing: if `_layoutScheduled` is
still set, run `_doLayout` and clear the flag; otherwise the callback is a
no-op.  Either way the callback itself is consumed. -/
def fireFrameCallback (s : SchedulerState) : SchedulerState :=
  if s.pendingFrameCallbacks = 0 then s
  else if s.layoutScheduled then
    { s with
      pendingFrameCallbacks := s.pendingFrameCallbacks - 1
      layoutPasses := s.layoutPasses + 1
      layoutScheduled := false }
  else { s with pendingFrameCallbacks := s.pendingFrameCallbacks - 1 }

/-! ### Masonry selection validator and change event
(`_validateSelection`, `_triggerChangeEvent`, `_arraysAreDifferent`) -/

/-- The three values of the `selectionmode` attribute. -/
inductive SelectionMode where
  | none
  | single
  | multiple
  deriving DecidableEq

/-- The host's items in document order, reduced to their `selected` flag:
the validator reads and writes nothing else of an item. -/
abbrev Items := List Bool

/-- Embeds `this.selectedItems` (`_getAllSelected`): the indices, in document
order, of the items carrying the `selected` attribute. -/
def selectedIdxs : Items → List Nat
  | [] => []
  | b :: rest => (if b then [0] else []) ++ (selectedIdxs rest).map (· + 1)

/-- The clearing loop of the `single` branch of `_validateSelection`: every
selected item other than the survivor at index `i` loses its `selected`
attribute. -/
def clearExcept : Nat → Items → Items
  | _, [] => []
  | 0, b :: rest => b :: rest.map (fun _ => false)
  | n + 1, _ :: rest => false :: clearExcept n rest

/-- Embeds `_onItemClick` flipping the `selected` attribute of the item at
index `i` (`setAttribute` / `removeAttribute`). -/
def toggleAt : Nat → Items → Items
  | _, [] => []
  | 0, b :: rest => (!b) :: rest
  | n + 1, b :: rest => b :: toggleAt n rest

/-- The shape of one field of the `coral-masonry:change` event detail:
a scalar item-or-null, or an array of items. -/
inductive Payload where
  | scalar (x : Option Nat)
  | arr (xs : List Nat)
  deriving DecidableEq

/-- Whether a payload is a scalar (item or null) rather than an array. -/
def Payload.isScalar : Payload → Bool
  | .scalar _ => true
  | .arr _ => false

/-- The detail of a `coral-masonry:change` event. -/
structure ChangeEvent where
  oldSelection : Payload
  selection : Payload
  deriving DecidableEq

/-- The fields of a `Masonry` instance read and written by the selection
validator and the change-event emitter. -/
structure MasonryState where
  mode : SelectionMode
  items : Items
  preventTriggeringEvents : Bool
  oldSelection : List Nat
  deriving DecidableEq

/-- Embeds `_arraysAreDifferent`: compare sizes first; on equal sizes, the old
selection filtered down to members missing from the new one must be empty. -/
def arraysAreDifferent (selection oldSelection : List Nat) : Bool :=
  let diff :=
    if oldSelection.length = selection.length then
      oldSelection.filter (fun x => !(selection.contains x))
    else []
  decide (oldSelection.length ≠ selection.length) || decide (diff.length ≠ 0)

/-- Embeds `_triggerChangeEvent`: when events are not suppressed and the fresh
selection differs from `_oldSelection`, emit a change event (array payloads in
`multiple` mode, otherwise the old array when it held more than one item or
else its first element or null, and the first selected item or null) and
record the fresh selection in `_oldSelection`. -/
def triggerChangeEvent (st : MasonryState) : MasonryState × Option ChangeEvent :=
  let selectedItems := selectedIdxs st.items
  let old := st.oldSelection
  if !st.preventTriggeringEvents && arraysAreDifferent selectedItems old then
    let ev : ChangeEvent :=
      if st.mode = SelectionMode.multiple then
        ⟨Payload.arr old, Payload.arr selectedItems⟩
      else
        ⟨if 1 < old.length then Payload.arr old else Payload.scalar old.head?,
          Payload.scalar selectedItems.head?⟩
    ({ st with oldSelection := selectedItems }, some ev)
  else (st, none)

/-- Embeds `_validateSelection`: in `none` mode clear every selected item with
events suppressed; in `single` mode, when the passed item (or, failing that,
the last selected item) is selected while more than one item is, clear the
others with events suppressed and re-enable events; in `multiple` mode do
nothing; finally run `_triggerChangeEvent`. -/
def validateSelection (st : MasonryState) (item? : Option Nat) :
    MasonryState × Option ChangeEvent :=
  let selectedItems := selectedIdxs st.items
  match st.mode with
  | SelectionMode.none =>
    triggerChangeEvent
      { st with
        items := st.items.map (fun _ => false)
        preventTriggeringEvents :=
          if selectedItems.isEmpty then st.preventTriggeringEvents else true }
  | SelectionMode.single =>
    match item?.orElse (fun _ => selectedItems.getLast?) with
    | some i =>
      if st.items.getD i false && decide (1 < selectedItems.length) then
        triggerChangeEvent
          { st with items := clearExcept i st.items, preventTriggeringEvents := false }
      else triggerChangeEvent st
    | Option.none => triggerChangeEvent st
  | SelectionMode.multiple => triggerChangeEvent st

/-- A selection-affecting interaction: a click/keyboard toggle of one item
(which flips its `selected` attribute and runs the validator with that item,
via `coral-masonry-item:_selectedchanged`), or an assignment of the
`selectionmode` property (which runs the validator with no item). -/
inductive MasonryOp where
  | toggle (i : Nat)
  | setMode (m : SelectionMode)

/-- One interaction applied to the component state. -/
def applyOp (st : MasonryState) : MasonryOp → MasonryState
  | .toggle i => (validateSelection { st with items := toggleAt i st.items } (some i)).1
  | .setMode m => (validateSelection { st with mode := m } Option.none).1

/-- A whole interaction sequence applied in order. -/
def runOps (st : MasonryState) (ops : List MasonryOp) : MasonryState :=
  ops.foldl applyOp st

/-- The selection-mode constraint of the spec: `none` allows no selected item,
`single` at most one, `multiple` anything. -/
def modeInvariant (st : MasonryState) : Prop :=
  match st.mode with
  | SelectionMode.none => st.items.count true = 0
  | SelectionMode.single => st.items.count true ≤ 1
  | SelectionMode.multiple => True

/-! ### Masonry drag reorder (`weightedDistance`, `_isApproachingPlaceholder`,
`_onItemDragMove`, `_onItemDragEnd`) -/

/-- A pointer/item position relative to the masonry
(the `{left, top}` record produced by `relativePosition`). -/
structure DragPos where
  left : ℚ
  top : ℚ
  deriving DecidableEq

/-- The geometry of the drop placeholder read by `_isApproachingPlaceholder`:
its position relative to the masonry and its `offsetWidth`/`offsetHeight`. -/
structure PlaceholderRect where
  left : ℚ
  top : ℚ
  width : ℚ
  height : ℚ
  deriving DecidableEq

/-- The x coordinate of the placeholder's center,
`placeholderPos.left + placeholderWidth / 2`. -/
def placeholderCenterX (ph : PlaceholderRect) : ℚ :=
  ph.left + ph.width / 2

/-- The y coordinate of the placeholder's center,
`placeholderPos.top + placeholderHeight / 2`. -/
def placeholderCenterY (ph : PlaceholderRect) : ℚ :=
  ph.top + ph.height / 2

/-- The radicand of the source's `weightedDistance`
(`Math.sqrt(((x2-x1)/unitWidth)^2 + ((y2-y1)/unitHeight)^2)`).  The square
root is strictly monotone on non-negative reals, so every comparison of two
`weightedDistance` values in the source is decided by the same comparison of
these radicands. -/
def weightedDistanceSq (x1 y1 x2 y2 unitWidth unitHeight : ℚ) : ℚ :=
  ((x2 - x1) / unitWidth) ^ 2 + ((y2 - y1) / unitHeight) ^ 2

/-- Embeds `_isApproachingPlaceholder`: the weighted distance from the
placeholder center to the new position is at most the weighted distance to
the previous position. -/
def isApproachingPlaceholder (pos prevPos : DragPos) (ph : PlaceholderRect) : Bool :=
  decide
    (weightedDistanceSq (placeholderCenterX ph) (placeholderCenterY ph)
        pos.left pos.top ph.width ph.height ≤
      weightedDistanceSq (placeholderCenterX ph) (placeholderCenterY ph)
        prevPos.left prevPos.top ph.width ph.height)

/-- DOM `insertBefore(x, target)` on a child list of element ids: `x` is first
detached from the list and then inserted immediately before `target` (or
appended when `target` is absent). -/
def placeBefore (x target : Nat) : List Nat → List Nat
  | [] => [x]
  | c :: rest => if c = target then x :: c :: rest else c :: placeBefore x target rest

/-- The `insertBefore` call on an erased-then-reinserted node. -/
def insertBeforeEl (children : List Nat) (x target : Nat) : List Nat :=
  placeBefore x target (children.erase x)

/-- The `nextSibling` of `target` in the child list. -/
def nextSiblingOf : List Nat → Nat → Option Nat
  | [], _ => Option.none
  | [_], _ => Option.none
  | a :: b :: rest, t => if a = t then some b else nextSiblingOf (b :: rest) t

/-- DOM `insertBefore(x, target.nextSibling)`: insert `x` right after
`target`, appending when `target` is last; per the DOM, inserting a node
before itself leaves the list unchanged. -/
def placeAfter (x target : Nat) (children : List Nat) : List Nat :=
  match nextSiblingOf children target with
  | some n => if n = x then children else insertBeforeEl children x n
  | Option.none => children.erase x ++ [x]

/-- Whether `a` precedes `b` in document order
(`compareDocumentPosition` returning `DOCUMENT_POSITION_PRECEDING`). -/
def precedes (children : List Nat) (a b : Nat) : Bool :=
  decide (children.indexOf a < children.indexOf b)

/-- The relocation body of `_onItemDragMove`: insert the placeholder before
the hit item when that item precedes the placeholder, after it otherwise. -/
def relocatePlaceholder (children : List Nat) (ph below : Nat) : List Nat :=
  if precedes children below ph then insertBeforeEl children ph below
  else placeAfter ph below children

/-- Embeds `_onItemDragMove`.  `itemAt` is the layout strategy's hit test;
`placeholder` is `item._dropPlaceholder` paired with its geometry;
`prevDragPos` is `item._prevDragPos`.  Returns the new child list and the new
`item._prevDragPos`. -/
def onItemDragMove (isMatched : Bool) (itemAt : ℚ → ℚ → Option Nat)
    (children : List Nat) (placeholder : Option (Nat × PlaceholderRect))
    (prevDragPos : Option DragPos) (pos : DragPos) :
    List Nat × Option DragPos :=
  match isMatched, placeholder with
  | true, some (phId, rect) =>
    let shouldRelocate : Bool :=
      match prevDragPos with
      | Option.none => true
      | some pp => !(isApproachingPlaceholder pos pp rect)
    let children' :=
      if shouldRelocate then
        match itemAt pos.left pos.top with
        | some below =>
          if below = phId then children else relocatePlaceholder children phId below
        | Option.none => children
      else children
    (children', some pos)
  | _, _ => (children, prevDragPos)

/-- The per-item drag session fields cleared at drag end. -/
structure DragSession where
  oldBefore : Option Nat
  dropPlaceholder : Option Nat
  prevDragPos : Option DragPos
  deriving DecidableEq

/-- The detail of the `coral-masonry:order` event. -/
structure OrderEvent where
  item : Nat
  oldBefore : Option Nat
  before : Option Nat
  deriving DecidableEq

/-- DOM `replaceChild(newC, oldC)`: `newC` is detached and put in `oldC`'s
slot. -/
def replaceFirst (oldC newC : Nat) : List Nat → List Nat
  | [] => []
  | c :: rest => if c = oldC then newC :: rest else c :: replaceFirst oldC newC rest

/-- The `replaceChild` call of `_onItemDragEnd`. -/
def replaceChildEl (children : List Nat) (newC oldC : Nat) : List Nat :=
  replaceFirst oldC newC (children.erase newC)

/-- The previous sibling of `t` in the child list
(`previousElementSibling`). -/
def prevSiblingOf : List Nat → Nat → Option Nat
  | [], _ => Option.none
  | [_], _ => Option.none
  | a :: b :: rest, t =>
    if b = t then some a
    else if a = t then Option.none
    else prevSiblingOf (b :: rest) t

/-- Embeds `getPreviousItem`: the previous sibling when it passes
`itemFilter` (modelled by the predicate `f`), otherwise null. -/
def getPreviousItem (f : Nat → Bool) (children : List Nat) (item : Nat) : Option Nat :=
  match prevSiblingOf children item with
  | some p => if f p then some p else Option.none
  | Option.none => Option.none

/-- Embeds `_onItemDragEnd`: when the event target is the matched target and a
placeholder exists, swap the item into the placeholder's slot and emit the
order event; in every case clear the three session fields.  Returns the new
child list, the emitted event (if any) and the cleared session. -/
def onItemDragEnd (f : Nat → Bool) (children : List Nat) (item : Nat)
    (isMatched : Bool) (sess : DragSession) :
    List Nat × Option OrderEvent × DragSession :=
  let cleared : DragSession := ⟨Option.none, Option.none, Option.none⟩
  match isMatched, sess.dropPlaceholder with
  | true, some ph =>
    let children' := replaceChildEl children item ph
    (children', some ⟨item, sess.oldBefore, getPreviousItem f children' item⟩, cleared)
  | _, _ => (children, Option.none, cleared)

/-! ### Masonry layout setter (`set layout`) -/

/-- The observable outcome of one assignment to the `layout` property: the
value of `this._layout` afterwards, whether `_scheduleLayout` was called, and
whether the unknown-layout error was logged. -/
structure LayoutSetResult where
  layout : Option String
  scheduled : Bool
  logged : Bool
  deriving DecidableEq

/-- Embeds the `layout` setter.  `registry` is `Masonry._layouts` in
registration order, `current` is `this._layout`.  An empty string falls back
to the first registered layout name; a value equal to the current one is
ignored; a registered value becomes the new `_layout` and schedules a layout;
an unregistered value is logged and changes nothing. -/
def setLayout (registry : List String) (current : Option String) (value : String) :
    LayoutSetResult :=
  let v := if value = "" then registry.head? else some value
  match v with
  | Option.none =>
    if current = Option.none then ⟨current, false, false⟩ else ⟨current, false, true⟩
  | some v =>
    if some v = current then ⟨current, false, false⟩
    else if registry.contains v then ⟨some v, true, false⟩
    else ⟨current, false, true⟩

/-! ### SelectableCollection bulk deselection (`_deselectAllExcept`) -/

/-- One child of the collection host as seen by `_deselectAllExcept`: whether
it is one of the collection's items, its `disabled` and `removing` flags, and
the boolean marker attributes it currently carries. -/
structure CollectionItem where
  isItem : Bool
  disabled : Bool
  removing : Bool
  attrs : List String
  deriving DecidableEq, Inhabited

/-- Modelled from the spec: `Collection._allItemsSelector` (defined in the
`Collection` base class, which is not part of the sources) matches the
collection's items; per the spec's §4.1 it filters neither on `disabled` nor
on `removing`, so an item matches it irrespective of those flags. -/
def matchesAllItemsSelector (it : CollectionItem) : Bool :=
  it.isItem

/-- Embeds `_selectedItemSelector` after the marker substitution performed by
`_deselectAllExcept`: the base item selector with `[marker]` appended. -/
def matchesSelectedSelector (marker : String) (it : CollectionItem) : Bool :=
  matchesAllItemsSelector it && it.attrs.contains marker

/-- DOM `removeAttribute`. -/
def removeAttribute (a : String) (it : CollectionItem) : CollectionItem :=
  { it with attrs := it.attrs.filter (fun x => x != a) }

/-- The two overloads of `_deselectAllExcept`'s first argument: a survivor
item, a marker-attribute name, or nothing. -/
inductive DeselectArg where
  | item (i : Nat)
  | attrName (s : String)
  | noArg

/-- The survivor kept selected: only the element overload designates one. -/
def deselectSurvivor : DeselectArg → Option Nat
  | .item i => some i
  | _ => Option.none

/-- The marker attribute matched and removed, with the source's
`|| 'selected'` defaulting for absent or empty names. -/
def deselectMarker : DeselectArg → Option String → String
  | .attrName s, _ => if s = "" then "selected" else s
  | _, some s => if s = "" then "selected" else s
  | _, Option.none => "selected"

/-- The removal loop of `_deselectAllExcept` over the children starting at
index `j`: every child matching the selected-item selector, other than the
survivor, loses the marker attribute. -/
def deselectLoop (marker : String) (survivor? : Option Nat) :
    Nat → List CollectionItem → List CollectionItem
  | _, [] => []
  | j, it :: rest =>
    (if matchesSelectedSelector marker it && !(survivor? == some j) then
        removeAttribute marker it
      else it) :: deselectLoop marker survivor? (j + 1) rest

/-- Embeds `_deselectAllExcept`. -/
def deselectAllExcept (arg : DeselectArg) (selectedAttribute : Option String)
    (children : List CollectionItem) : List CollectionItem :=
  deselectLoop (deselectMarker arg selectedAttribute) (deselectSurvivor arg) 0 children

/-! ### Helper lemmas -/

theorem prevSelectableIdx_eq_none (children : List SElem) :
    ∀ k, (∀ j, j < k → matchesSelectable (children.getD j default) = false) →
      prevSelectableIdx children k = Option.none := by
  intro k
  induction k with
  | zero => intro _; rfl
  | succ n ih =>
    intro h
    have hn : matchesSelectable (children.getD n default) = false := h n (Nat.lt_succ_self n)
    simp only [prevSelectableIdx, hn, Bool.false_eq_true, if_false]
    exact ih fun j hj => h j (Nat.lt_succ_of_lt hj)

theorem prevSelectableIdx_spec (children : List SElem) :
    ∀ k r, prevSelectableIdx children k = some r →
      r < k ∧ matchesSelectable (children.getD r default) = true ∧
        ∀ j, r < j → j < k → matchesSelectable (children.getD j default) = false := by
  intro k
  induction k with
  | zero => intro r h; simp [prevSelectableIdx] at h
  | succ n ih =>
    intro r h
    cases hn : matchesSelectable (children.getD n default) with
    | true =>
      simp only [prevSelectableIdx, hn, if_true] at h
      cases h
      exact ⟨Nat.lt_succ_self _, hn, fun j hj1 hj2 => absurd hj2 (by omega)⟩
    | false =>
      simp only [prevSelectableIdx, hn, Bool.false_eq_true, if_false] at h
      obtain ⟨h1, h2, h3⟩ := ih r h
      refine ⟨Nat.lt_succ_of_lt h1, h2, fun j hj1 hj2 => ?_⟩
      rcases Nat.lt_succ_iff_lt_or_eq.mp hj2 with hj | rfl
      · exact h3 j hj1 hj
      · exact hn

theorem firstSelectableFrom_eq_none :
    ∀ (l : List SElem) (base : Nat),
      (∀ i, i < l.length → matchesSelectable (l.getD i default) = false) →
      firstSelectableFrom l base = Option.none := by
  intro l
  induction l with
  | nil => intro base _; rfl
  | cons e rest ih =>
    intro base h
    have h0 : matchesSelectable e = false := h 0 (Nat.succ_pos _)
    simp only [firstSelectableFrom, h0, Bool.false_eq_true, if_false]
    exact ih (base + 1) fun i hi => h (i + 1) (Nat.succ_lt_succ hi)

theorem firstSelectableFrom_spec :
    ∀ (l : List SElem) (base r : Nat), firstSelectableFrom l base = some r →
      base ≤ r ∧ r - base < l.length ∧
        matchesSelectable (l.getD (r - base) default) = true ∧
        ∀ i, i < r - base → matchesSelectable (l.getD i default) = false := by
  intro l
  induction l with
  | nil => intro base r h; simp [firstSelectableFrom] at h
  | cons e rest ih =>
    intro base r h
    cases he : matchesSelectable e with
    | true =>
      simp only [firstSelectableFrom, he, if_true] at h
      obtain rfl : base = r := Option.some.inj h
      refine ⟨Nat.le_refl _, by simp, ?_, fun i hi => absurd hi (by omega)⟩
      simpa using he
    | false =>
      simp only [firstSelectableFrom, he, Bool.false_eq_true, if_false] at h
      obtain ⟨h1, h2, h3, h4⟩ := ih (base + 1) r h
      refine ⟨by omega, by simp; omega, ?_, ?_⟩
      · have : r - base = (r - (base + 1)) + 1 := by omega
        rw [this]
        simpa using h3
      · intro i hi
        cases i with
        | zero => simpa using he
        | succ m =>
          have : m < r - (base + 1) := by omega
          simpa using h4 m this

theorem getD_drop (d : SElem) :
    ∀ (m : Nat) (l : List SElem) (i : Nat), (l.drop m).getD i d = l.getD (m + i) d := by
  intro m
  induction m with
  | zero => intro l i; simp
  | succ n ih =>
    intro l i
    cases l with
    | nil => simp
    | cons a rest =>
      have : n + 1 + i = n + i + 1 := by omega
      simp only [List.drop_succ_cons, ih rest i, this, List.getD_cons_succ]

/-! ### Claim theorems: C3 and C4 -/

/-- C3: for every position `k` in the host's child list,
`_getPreviousSelectable` and `_getNextSelectable` never return null: when no
sibling in the respective direction matches the selectable selector they
return the input item itself, and otherwise they return the nearest such
sibling (the matching index closest to `k`, with nothing selectable strictly
between). -/
theorem selectable_sibling_walk_clamps (children : List SElem) (k : Nat) :
    ((∀ j, j < k → matchesSelectable (children.getD j default) = false) →
        getPreviousSelectable children k = k) ∧
      (getPreviousSelectable children k ≠ k →
        getPreviousSelectable children k < k ∧
          matchesSelectable (children.getD (getPreviousSelectable children k) default) = true ∧
          ∀ j, getPreviousSelectable children k < j → j < k →
            matchesSelectable (children.getD j default) = false) ∧
      ((∀ j, k < j → j < children.length →
            matchesSelectable (children.getD j default) = false) →
        getNextSelectable children k = k) ∧
      (getNextSelectable children k ≠ k →
        k < getNextSelectable children k ∧ getNextSelectable children k < children.length ∧
          matchesSelectable (children.getD (getNextSelectable children k) default) = true ∧
          ∀ j, k < j → j < getNextSelectable children k →
            matchesSelectable (children.getD j default) = false) := by
  refine ⟨?_, ?_, ?_, ?_⟩
  · intro h
    unfold getPreviousSelectable
    rw [prevSelectableIdx_eq_none children k h]
    rfl
  · intro hne
    cases hp : prevSelectableIdx children k with
    | none => exact absurd (by unfold getPreviousSelectable; rw [hp]; rfl) hne
    | some r =>
      have hr : getPreviousSelectable children k = r := by
        unfold getPreviousSelectable; rw [hp]; rfl
      rw [hr]
      exact prevSelectableIdx_spec children k r hp
  · intro h
    unfold getNextSelectable nextSelectableIdx
    rw [firstSelectableFrom_eq_none (children.drop (k + 1)) (k + 1) ?_]
    · rfl
    · intro i hi
      rw [getD_drop]
      have hlen : (children.drop (k + 1)).length = children.length - (k + 1) := by simp
      exact h (k + 1 + i) (by omega) (by omega)
  · intro hne
    cases hx : nextSelectableIdx children k with
    | none => exact absurd (by unfold getNextSelectable; rw [hx]; rfl) hne
    | some r =>
      have hr : getNextSelectable children k = r := by
        unfold getNextSelectable; rw [hx]; rfl
      rw [hr]
      have hspec := firstSelectableFrom_spec (children.drop (k + 1)) (k + 1) r hx
      obtain ⟨h1, h2, h3, h4⟩ := hspec
      have hlen : (children.drop (k + 1)).length = children.length - (k + 1) := by simp
      rw [hlen] at h2
      rw [getD_drop] at h3
      have hco : k + 1 + (r - (k + 1)) = r := by omega
      rw [hco] at h3
      refine ⟨by omega, by omega, h3, fun j hj1 hj2 => ?_⟩
      have := h4 (j - (k + 1)) (by omega)
      rw [getD_drop] at this
      have hco2 : k + 1 + (j - (k + 1)) = j := by omega
      rwa [hco2] at this

/-- Witness for C3 at a concrete child list: item 2's previous selectable is
item 0 (skipping the disabled item 1), and with nothing selectable to the
right of item 2, its next selectable is itself. -/
theorem selectable_sibling_walk_clamps_witness :
    (getPreviousSelectable [⟨true, false⟩, ⟨true, true⟩, ⟨true, false⟩] 2 = 0 ∧
        matchesSelectable ((([⟨true, false⟩, ⟨true, true⟩, ⟨true, false⟩] : List SElem)).getD 0 default) = true) ∧
      getNextSelectable [⟨true, false⟩, ⟨true, true⟩, ⟨true, false⟩] 2 = 2 := by
  have h := selectable_sibling_walk_clamps [⟨true, false⟩, ⟨true, true⟩, ⟨true, false⟩] 2
  refine ⟨⟨by decide, ?_⟩, ?_⟩
  · exact (h.2.1 (by decide)).2.1
  · exact h.2.2.1 fun j hj1 hj2 => absurd hj2 (by simp; omega)

theorem scheduleLayout_of_scheduled (s : SchedulerState) (h : s.layoutScheduled = true) :
    scheduleLayout s = s := by
  simp [scheduleLayout, h]

theorem iterate_scheduleLayout_of_scheduled (s : SchedulerState)
    (h : s.layoutScheduled = true) : ∀ m, scheduleLayout^[m] s = s := by
  intro m
  induction m with
  | zero => rfl
  | succ n ih => rw [Function.iterate_succ_apply, scheduleLayout_of_scheduled s h, ih]

/-- C4: from an idle scheduler (no forced debounce, nothing scheduled), `n ≥ 1`
invalidation signals register exactly one frame callback, set the scheduled
flag once, run no pass synchronously, and when the frame callback fires
exactly one layout pass runs and the flag clears. -/
theorem schedule_signals_coalesce (s : SchedulerState) (n : Nat)
    (h1 : 1 ≤ n) (h2 : s.forceDebounce = false) (h3 : s.layoutScheduled = false) :
    (scheduleLayout^[n] s).pendingFrameCallbacks = s.pendingFrameCallbacks + 1 ∧
      (scheduleLayout^[n] s).layoutScheduled = true ∧
      (scheduleLayout^[n] s).layoutPasses = s.layoutPasses ∧
      (fireFrameCallback (scheduleLayout^[n] s)).layoutPasses = s.layoutPasses + 1 ∧
      (fireFrameCallback (scheduleLayout^[n] s)).layoutScheduled = false := by
  obtain ⟨m, rfl⟩ : ∃ m, n = m + 1 := ⟨n - 1, by omega⟩
  have hs1 : scheduleLayout s =
      { s with
        pendingFrameCallbacks := s.pendingFrameCallbacks + 1
        layoutScheduled := true } := by
    simp [scheduleLayout, h2, h3]
  rw [Function.iterate_succ_apply, hs1, iterate_scheduleLayout_of_scheduled _ rfl m]
  refine ⟨rfl, rfl, rfl, ?_, ?_⟩ <;>
    simp [fireFrameCallback]

/-- Witness for C4: three signals on a fresh scheduler leave one pending frame
callback and produce exactly one pass at the frame. -/
theorem schedule_signals_coalesce_witness :
    (scheduleLayout^[3] ⟨false, false, 0, 0⟩).pendingFrameCallbacks = 0 + 1 ∧
      (scheduleLayout^[3] (⟨false, false, 0, 0⟩ : SchedulerState)).layoutScheduled = true ∧
      (scheduleLayout^[3] (⟨false, false, 0, 0⟩ : SchedulerState)).layoutPasses = 0 ∧
      (fireFrameCallback (scheduleLayout^[3] ⟨false, false, 0, 0⟩)).layoutPasses = 0 + 1 ∧
      (fireFrameCallback (scheduleLayout^[3] ⟨false, false, 0, 0⟩)).layoutScheduled = false :=
  schedule_signals_coalesce ⟨false, false, 0, 0⟩ 3 (by decide) rfl rfl

/-! ### Helper lemmas about the selection model -/

theorem count_map_false (l : Items) : (l.map fun _ => false).count true = 0 := by
  induction l with
  | nil => rfl
  | cons b rest ih => simpa [List.count_cons] using ih

theorem selectedIdxs_replicate_false : ∀ n, selectedIdxs (List.replicate n false) = [] := by
  intro n
  induction n with
  | zero => rfl
  | succ m ih => simp [List.replicate_succ, selectedIdxs, ih]

theorem selectedIdxs_map_false (l : Items) :
    selectedIdxs (l.map fun _ => false) = [] := by
  induction l with
  | nil => rfl
  | cons b rest ih => simp [selectedIdxs, ih, selectedIdxs_replicate_false]

theorem length_selectedIdxs (l : Items) : (selectedIdxs l).length = l.count true := by
  induction l with
  | nil => rfl
  | cons b rest ih =>
    cases b <;> simp [selectedIdxs, List.count_cons, ih]

theorem mem_selectedIdxs (l : Items) :
    ∀ i, i ∈ selectedIdxs l ↔ l.getD i false = true := by
  induction l with
  | nil => intro i; simp [selectedIdxs]
  | cons b rest ih =>
    intro i
    cases i with
    | zero => cases b <;> simp [selectedIdxs]
    | succ n => cases b <;> simp [selectedIdxs, ih n]

theorem count_clearExcept_le (i : Nat) (l : Items) :
    (clearExcept i l).count true ≤ 1 := by
  induction l generalizing i with
  | nil => simp [clearExcept]
  | cons b rest ih =>
    cases i with
    | zero => cases b <;> simp [clearExcept, List.count_cons, List.count_replicate]
    | succ n => simpa [clearExcept, List.count_cons] using ih n

theorem selectedIdxs_clearExcept (i : Nat) (l : Items) (h : l.getD i false = true) :
    selectedIdxs (clearExcept i l) = [i] := by
  induction l generalizing i with
  | nil => simp at h
  | cons b rest ih =>
    cases i with
    | zero =>
      have hb : b = true := h
      simp [clearExcept, selectedIdxs, hb, selectedIdxs_replicate_false]
    | succ n =>
      have hn : rest.getD n false = true := h
      simp [clearExcept, selectedIdxs, ih n hn]

theorem toggleAt_getD_count (i : Nat) (l : Items)
    (h : (toggleAt i l).getD i false = false) :
    (toggleAt i l).count true ≤ l.count true := by
  induction l generalizing i with
  | nil => simp [toggleAt]
  | cons b rest ih =>
    cases i with
    | zero =>
      have hb : (!b) = false := h
      have : b = true := by cases b <;> simp_all
      subst this
      simp [toggleAt, List.count_cons]
    | succ n =>
      have hn : (toggleAt n rest).getD n false = false := h
      have := ih n hn
      simp only [toggleAt, List.count_cons]
      omega

theorem getLast?_mem_list : ∀ (l : List Nat) (a : Nat), l.getLast? = some a → a ∈ l := by
  intro l
  induction l with
  | nil => intro a h; simp at h
  | cons b rest ih =>
    intro a h
    cases rest with
    | nil =>
      simp [List.getLast?] at h
      simp [h]
    | cons c d =>
      rw [List.getLast?_cons_cons] at h
      exact List.mem_cons_of_mem b (ih a h)

theorem eq_singleton_of_length_le_one (l : List Nat) (i : Nat)
    (h1 : l.length ≤ 1) (h2 : i ∈ l) : l = [i] := by
  cases l with
  | nil => simp at h2
  | cons a rest =>
    cases rest with
    | nil => simp at h2; simp [h2]
    | cons c d => simp at h1

theorem triggerChangeEvent_state (st : MasonryState) :
    (triggerChangeEvent st).1.mode = st.mode ∧
      (triggerChangeEvent st).1.items = st.items ∧
      (triggerChangeEvent st).1.preventTriggeringEvents = st.preventTriggeringEvents := by
  simp only [triggerChangeEvent]
  split <;> exact ⟨rfl, rfl, rfl⟩

theorem triggerChangeEvent_of_prevent (st : MasonryState)
    (h : st.preventTriggeringEvents = true) : (triggerChangeEvent st).2 = Option.none := by
  simp [triggerChangeEvent, h]

theorem validateSelection_mode (st : MasonryState) (item? : Option Nat) :
    (validateSelection st item?).1.mode = st.mode := by
  obtain ⟨mode, items, pv, old⟩ := st
  cases mode with
  | none => exact (triggerChangeEvent_state _).1
  | single =>
    simp only [validateSelection]
    split
    · split
      · exact (triggerChangeEvent_state _).1
      · exact (triggerChangeEvent_state _).1
    · exact (triggerChangeEvent_state _).1
  | multiple => exact (triggerChangeEvent_state _).1

theorem validateSelection_single_some_eq (items : Items) (pv : Bool) (old : List Nat) (i : Nat) :
    validateSelection ⟨SelectionMode.single, items, pv, old⟩ (some i) =
      if items.getD i false && decide (1 < (selectedIdxs items).length) then
        triggerChangeEvent ⟨SelectionMode.single, clearExcept i items, false, old⟩
      else triggerChangeEvent ⟨SelectionMode.single, items, pv, old⟩ := rfl

theorem validateSelection_single_none_eq (items : Items) (pv : Bool) (old : List Nat) :
    validateSelection ⟨SelectionMode.single, items, pv, old⟩ Option.none =
      (match (selectedIdxs items).getLast? with
      | some i =>
        if items.getD i false && decide (1 < (selectedIdxs items).length) then
          triggerChangeEvent ⟨SelectionMode.single, clearExcept i items, false, old⟩
        else triggerChangeEvent ⟨SelectionMode.single, items, pv, old⟩
      | Option.none => triggerChangeEvent ⟨SelectionMode.single, items, pv, old⟩) := rfl

theorem validateSelection_single_some_count (items : Items) (pv : Bool) (old : List Nat)
    (i : Nat) (hd : items.getD i false = true) :
    (validateSelection ⟨SelectionMode.single, items, pv, old⟩ (some i)).1.items.count true ≤ 1 := by
  rw [validateSelection_single_some_eq]
  by_cases hlen : 1 < (selectedIdxs items).length
  · rw [if_pos (by rw [hd, decide_eq_true hlen]; rfl), (triggerChangeEvent_state _).2.1]
    exact count_clearExcept_le i items
  · rw [if_neg (by rw [hd, decide_eq_false hlen]; simp), (triggerChangeEvent_state _).2.1]
    have := length_selectedIdxs items
    show List.count true items ≤ 1
    omega

theorem validateSelection_single_some (items : Items) (pv : Bool) (old : List Nat) (i : Nat) :
    (validateSelection ⟨SelectionMode.single, items, pv, old⟩ (some i)).1.items.count true ≤ 1 ∨
      ((validateSelection ⟨SelectionMode.single, items, pv, old⟩ (some i)).1.items = items ∧
        items.getD i false = false) := by
  cases hd : items.getD i false with
  | true => exact Or.inl (validateSelection_single_some_count items pv old i hd)
  | false =>
    right
    refine ⟨?_, rfl⟩
    rw [validateSelection_single_some_eq, if_neg (by rw [hd]; simp)]
    exact (triggerChangeEvent_state _).2.1

theorem validateSelection_single_none_count (items : Items) (pv : Bool) (old : List Nat) :
    (validateSelection ⟨SelectionMode.single, items, pv, old⟩ Option.none).1.items.count true ≤ 1 := by
  rw [validateSelection_single_none_eq]
  cases hl : (selectedIdxs items).getLast? with
  | none =>
    have hnil : selectedIdxs items = [] := List.getLast?_eq_none_iff.mp hl
    have hcount : items.count true = 0 := by
      have h2 := length_selectedIdxs items
      rw [hnil] at h2
      simpa using h2.symm
    rw [(triggerChangeEvent_state _).2.1]
    show List.count true items ≤ 1
    omega
  | some j =>
    have hj : items.getD j false = true :=
      (mem_selectedIdxs items j).mp (getLast?_mem_list _ j hl)
    dsimp only
    by_cases hlen : 1 < (selectedIdxs items).length
    · rw [if_pos (by rw [hj, decide_eq_true hlen]; rfl), (triggerChangeEvent_state _).2.1]
      exact count_clearExcept_le j items
    · rw [if_neg (by rw [hj, decide_eq_false hlen]; simp), (triggerChangeEvent_state _).2.1]
      have := length_selectedIdxs items
      show List.count true items ≤ 1
      omega

theorem modeInvariant_iff (st : MasonryState) :
    modeInvariant st ↔
      (st.mode = SelectionMode.none → st.items.count true = 0) ∧
        (st.mode = SelectionMode.single → st.items.count true ≤ 1) := by
  obtain ⟨mode, items, pv, old⟩ := st
  cases mode <;> simp [modeInvariant]

theorem applyOp_preserves (st : MasonryState) (op : MasonryOp)
    (h : modeInvariant st) : modeInvariant (applyOp st op) := by
  obtain ⟨mode, items, pv, old⟩ := st
  cases op with
  | setMode m =>
    show modeInvariant (validateSelection ⟨m, items, pv, old⟩ Option.none).1
    cases m with
    | none =>
      have hit : (validateSelection ⟨SelectionMode.none, items, pv, old⟩ Option.none).1.items
          = items.map fun _ => false := (triggerChangeEvent_state _).2.1
      rw [modeInvariant_iff]
      refine ⟨fun _ => ?_, fun hm => ?_⟩
      · rw [hit]; exact count_map_false items
      · rw [validateSelection_mode] at hm; simp at hm
    | single =>
      rw [modeInvariant_iff]
      refine ⟨fun hm => ?_, fun _ => ?_⟩
      · rw [validateSelection_mode] at hm; simp at hm
      · exact validateSelection_single_none_count items pv old
    | multiple =>
      have hm : (validateSelection ⟨SelectionMode.multiple, items, pv, old⟩ Option.none).1.mode
          = SelectionMode.multiple := validateSelection_mode _ _
      rw [modeInvariant_iff]
      refine ⟨fun hc => ?_, fun hc => ?_⟩ <;> rw [hm] at hc <;> simp at hc
  | toggle i =>
    show modeInvariant (validateSelection ⟨mode, toggleAt i items, pv, old⟩ (some i)).1
    cases mode with
    | none =>
      have hit : (validateSelection ⟨SelectionMode.none, toggleAt i items, pv, old⟩ (some i)).1.items
          = (toggleAt i items).map fun _ => false := (triggerChangeEvent_state _).2.1
      rw [modeInvariant_iff]
      refine ⟨fun _ => ?_, fun hm => ?_⟩
      · rw [hit]; exact count_map_false _
      · rw [validateSelection_mode] at hm; simp at hm
    | single =>
      have hinv : items.count true ≤ 1 := h
      rw [modeInvariant_iff]
      refine ⟨fun hm => ?_, fun _ => ?_⟩
      · rw [validateSelection_mode] at hm; simp at hm
      · rcases validateSelection_single_some (toggleAt i items) pv old i with hle | ⟨heq, hd⟩
        · exact hle
        · rw [heq]
          exact le_trans (toggleAt_getD_count i items hd) hinv
    | multiple =>
      have hm : (validateSelection ⟨SelectionMode.multiple, toggleAt i items, pv, old⟩ (some i)).1.mode
          = SelectionMode.multiple := validateSelection_mode _ _
      rw [modeInvariant_iff]
      refine ⟨fun hc => ?_, fun hc => ?_⟩ <;> rw [hm] at hc <;> simp at hc

theorem runOps_preserves (st : MasonryState) (ops : List MasonryOp)
    (h : modeInvariant st) : modeInvariant (runOps st ops) := by
  induction ops generalizing st with
  | nil => exact h
  | cons op rest ih => exact ih (applyOp st op) (applyOp_preserves st op h)

theorem validateSelection_none_eq (items : Items) (pv : Bool) (old : List Nat)
    (item? : Option Nat) :
    validateSelection ⟨SelectionMode.none, items, pv, old⟩ item? =
      triggerChangeEvent ⟨SelectionMode.none, items.map fun _ => false,
        if (selectedIdxs items).isEmpty then pv else true, old⟩ := rfl

theorem validateSelection_multiple_eq (items : Items) (pv : Bool) (old : List Nat)
    (item? : Option Nat) :
    validateSelection ⟨SelectionMode.multiple, items, pv, old⟩ item? =
      triggerChangeEvent ⟨SelectionMode.multiple, items, pv, old⟩ := rfl

theorem selectedIdxs_isEmpty_false (items : Items) (hpos : 0 < items.count true) :
    (selectedIdxs items).isEmpty = false := by
  cases hsel : selectedIdxs items with
  | nil =>
    exfalso
    have h2 := length_selectedIdxs items
    rw [hsel] at h2
    simp at h2
    omega
  | cons a t => rfl

theorem validateSelection_survivor_some (items : Items) (pv : Bool) (old : List Nat)
    (i : Nat) (hd : items.getD i false = true) :
    selectedIdxs ((validateSelection ⟨SelectionMode.single, items, pv, old⟩ (some i)).1.items)
      = [i] := by
  rw [validateSelection_single_some_eq]
  by_cases hlen : 1 < (selectedIdxs items).length
  · rw [if_pos (by rw [hd, decide_eq_true hlen]; rfl), (triggerChangeEvent_state _).2.1]
    exact selectedIdxs_clearExcept i items hd
  · rw [if_neg (by rw [hd, decide_eq_false hlen]; simp), (triggerChangeEvent_state _).2.1]
    show selectedIdxs items = [i]
    exact eq_singleton_of_length_le_one _ i (by omega) ((mem_selectedIdxs items i).mpr hd)

theorem validateSelection_survivor_last (items : Items) (pv : Bool) (old : List Nat)
    (j : Nat) (hl : (selectedIdxs items).getLast? = some j) :
    selectedIdxs ((validateSelection ⟨SelectionMode.single, items, pv, old⟩ Option.none).1.items)
      = [j] := by
  have hj : items.getD j false = true :=
    (mem_selectedIdxs items j).mp (getLast?_mem_list _ j hl)
  rw [validateSelection_single_none_eq, hl]
  dsimp only
  by_cases hlen : 1 < (selectedIdxs items).length
  · rw [if_pos (by rw [hj, decide_eq_true hlen]; rfl), (triggerChangeEvent_state _).2.1]
    exact selectedIdxs_clearExcept j items hj
  · rw [if_neg (by rw [hj, decide_eq_false hlen]; simp), (triggerChangeEvent_state _).2.1]
    show selectedIdxs items = [j]
    exact eq_singleton_of_length_le_one _ j (by omega) (getLast?_mem_list _ j hl)

/-! ### Claim theorems: C2, C5, C6, C10 -/

/-- C2: over every sequence of selection toggles and mode assignments the
validator keeps the mode constraint (`none` means no selected item, `single`
at most one, `multiple` unconstrained), and in `single` mode the survivor is
the item passed to the validator, or the last selected item in document order
when none is passed. -/
theorem masonry_selection_mode_invariant :
    (∀ (st : MasonryState) (ops : List MasonryOp),
        modeInvariant st → modeInvariant (runOps st ops)) ∧
      (∀ (st : MasonryState) (i : Nat), st.mode = SelectionMode.single →
        st.items.getD i false = true →
        selectedIdxs ((validateSelection st (some i)).1.items) = [i]) ∧
      (∀ (st : MasonryState) (j : Nat), st.mode = SelectionMode.single →
        (selectedIdxs st.items).getLast? = some j →
        selectedIdxs ((validateSelection st Option.none).1.items) = [j]) := by
  refine ⟨runOps_preserves, fun st i hm hd => ?_, fun st j hm hl => ?_⟩
  · obtain ⟨mode, items, pv, old⟩ := st
    cases hm
    exact validateSelection_survivor_some items pv old i hd
  · obtain ⟨mode, items, pv, old⟩ := st
    cases hm
    exact validateSelection_survivor_last items pv old j hl

/-- Witness for C2: a five-interaction run from a valid `single`-mode state
keeps the invariant, and the two survivor shapes at concrete states. -/
theorem masonry_selection_mode_invariant_witness :
    modeInvariant (runOps ⟨SelectionMode.single, [false, true, false], false, []⟩
        [MasonryOp.toggle 0, MasonryOp.toggle 2, MasonryOp.setMode SelectionMode.multiple,
          MasonryOp.toggle 1, MasonryOp.setMode SelectionMode.single]) ∧
      selectedIdxs ((validateSelection ⟨SelectionMode.single, [true, true], false, []⟩
          (some 0)).1.items) = [0] ∧
      selectedIdxs ((validateSelection ⟨SelectionMode.single, [true, false, true], true, []⟩
          Option.none).1.items) = [2] := by
  refine ⟨masonry_selection_mode_invariant.1 _ _ ?_,
    masonry_selection_mode_invariant.2.1 _ 0 rfl (by decide),
    masonry_selection_mode_invariant.2.2 _ 2 rfl (by decide)⟩
  show List.count true [false, true, false] ≤ 1
  decide

/-- C6: whenever the validator runs in `none` mode, every selected item is
cleared, and when at least one item was selected (so that synthetic clears
happened) no change event is emitted. -/
theorem masonry_none_mode_silent_clear (st : MasonryState) (item? : Option Nat)
    (hm : st.mode = SelectionMode.none) :
    (validateSelection st item?).1.items.count true = 0 ∧
      (0 < st.items.count true → (validateSelection st item?).2 = Option.none) := by
  obtain ⟨mode, items, pv, old⟩ := st
  cases hm
  rw [validateSelection_none_eq]
  constructor
  · rw [(triggerChangeEvent_state _).2.1]
    exact count_map_false items
  · intro hpos
    apply triggerChangeEvent_of_prevent
    show (if (selectedIdxs items).isEmpty then pv else true) = true
    rw [selectedIdxs_isEmpty_false items hpos]
    rfl

/-- Witness for C6: in `none` mode with one selected item the validator
clears everything and emits nothing. -/
theorem masonry_none_mode_silent_clear_witness :
    (validateSelection ⟨SelectionMode.none, [true, false], false, [0]⟩
        Option.none).1.items.count true = 0 ∧
      (validateSelection ⟨SelectionMode.none, [true, false], false, [0]⟩
        Option.none).2 = Option.none := by
  have h := masonry_none_mode_silent_clear
    ⟨SelectionMode.none, [true, false], false, [0]⟩ Option.none rfl
  exact ⟨h.1, h.2 (by decide)⟩

/-- C10: a `none`-mode validation that clears at least one selected item sets
the notification-suppression flag and does not reset it; while the flag is
set, every further validation in `none` or `multiple` mode keeps it set and
emits nothing, and only the clearing branch of a `single`-mode normalization
resets it to false. -/
theorem masonry_prevent_flag_persists (st : MasonryState) (item? : Option Nat) :
    (st.mode = SelectionMode.none → 0 < st.items.count true →
        (validateSelection st item?).1.preventTriggeringEvents = true ∧
          (validateSelection st item?).2 = Option.none) ∧
      (st.preventTriggeringEvents = true → st.mode ≠ SelectionMode.single →
        (validateSelection st item?).1.preventTriggeringEvents = true ∧
          (validateSelection st item?).2 = Option.none) ∧
      (st.preventTriggeringEvents = true → st.mode = SelectionMode.single →
        ((validateSelection st item?).1.preventTriggeringEvents = true ∧
            (validateSelection st item?).2 = Option.none) ∨
          (validateSelection st item?).1.preventTriggeringEvents = false) := by
  obtain ⟨mode, items, pv, old⟩ := st
  refine ⟨fun hm hpos => ?_, fun hpv hm => ?_, fun hpv hm => ?_⟩
  · cases hm
    rw [validateSelection_none_eq]
    have hflag : (if (selectedIdxs items).isEmpty then pv else true) = true := by
      rw [selectedIdxs_isEmpty_false items hpos]
      rfl
    refine ⟨?_, ?_⟩
    · rw [(triggerChangeEvent_state _).2.2]
      exact hflag
    · exact triggerChangeEvent_of_prevent _ hflag
  · cases mode with
    | none =>
      cases hpv
      rw [validateSelection_none_eq]
      have hflag : (if (selectedIdxs items).isEmpty then true else true) = true := by
        cases (selectedIdxs items).isEmpty <;> rfl
      refine ⟨?_, ?_⟩
      · rw [(triggerChangeEvent_state _).2.2]
        exact hflag
      · exact triggerChangeEvent_of_prevent _ hflag
    | single => exact absurd rfl hm
    | multiple =>
      cases hpv
      rw [validateSelection_multiple_eq]
      exact ⟨(triggerChangeEvent_state _).2.2, triggerChangeEvent_of_prevent _ rfl⟩
  · cases hm
    cases hpv
    cases item? with
    | some i =>
      rw [validateSelection_single_some_eq]
      by_cases hc : (items.getD i false && decide (1 < (selectedIdxs items).length)) = true
      · rw [if_pos hc]
        exact Or.inr (triggerChangeEvent_state _).2.2
      · rw [if_neg hc]
        exact Or.inl ⟨(triggerChangeEvent_state _).2.2, triggerChangeEvent_of_prevent _ rfl⟩
    | none =>
      rw [validateSelection_single_none_eq]
      cases hl : (selectedIdxs items).getLast? with
      | none =>
        dsimp only
        exact Or.inl ⟨(triggerChangeEvent_state _).2.2, triggerChangeEvent_of_prevent _ rfl⟩
      | some j =>
        dsimp only
        by_cases hc : (items.getD j false && decide (1 < (selectedIdxs items).length)) = true
        · rw [if_pos hc]
          exact Or.inr (triggerChangeEvent_state _).2.2
        · rw [if_neg hc]
          exact Or.inl ⟨(triggerChangeEvent_state _).2.2, triggerChangeEvent_of_prevent _ rfl⟩

/-- Witness for C10: after a `none`-mode clear of one selected item the flag
is set and no event fires; a later `multiple`-mode validation with the flag
set also emits nothing; a `single`-mode clear resets it. -/
theorem masonry_prevent_flag_persists_witness :
    ((validateSelection ⟨SelectionMode.none, [true], false, []⟩
          Option.none).1.preventTriggeringEvents = true ∧
        (validateSelection ⟨SelectionMode.none, [true], false, []⟩
          Option.none).2 = Option.none) ∧
      ((validateSelection ⟨SelectionMode.multiple, [true], true, []⟩
            Option.none).1.preventTriggeringEvents = true ∧
          (validateSelection ⟨SelectionMode.multiple, [true], true, []⟩
            Option.none).2 = Option.none) ∧
      (((validateSelection ⟨SelectionMode.single, [true, true], true, []⟩
              Option.none).1.preventTriggeringEvents = true ∧
            (validateSelection ⟨SelectionMode.single, [true, true], true, []⟩
              Option.none).2 = Option.none) ∨
          (validateSelection ⟨SelectionMode.single, [true, true], true, []⟩
            Option.none).1.preventTriggeringEvents = false) := by
  refine ⟨(masonry_prevent_flag_persists ⟨SelectionMode.none, [true], false, []⟩
      Option.none).1 rfl (by decide),
    (masonry_prevent_flag_persists ⟨SelectionMode.multiple, [true], true, []⟩
      Option.none).2.1 rfl (by decide),
    (masonry_prevent_flag_persists ⟨SelectionMode.single, [true, true], true, []⟩
      Option.none).2.2 rfl rfl⟩

theorem triggerChangeEvent_some (st : MasonryState) (ev : ChangeEvent)
    (h : (triggerChangeEvent st).2 = some ev) :
    ev = (if st.mode = SelectionMode.multiple then
        (⟨Payload.arr st.oldSelection, Payload.arr (selectedIdxs st.items)⟩ : ChangeEvent)
      else
        ⟨if 1 < st.oldSelection.length then Payload.arr st.oldSelection
            else Payload.scalar st.oldSelection.head?,
          Payload.scalar (selectedIdxs st.items).head?⟩) := by
  simp only [triggerChangeEvent] at h
  split at h
  · exact (Option.some.inj h).symm
  · simp at h

/-- C5 (amended): every emitted change event carries array payloads in
`multiple` mode; in `single`/`none` mode the `selection` field is always a
scalar, and the `oldSelection` field is a scalar when the previously recorded
selection held at most one item but is the whole previous array when it held
more than one. -/
theorem masonry_change_event_payload_shape (st : MasonryState) (ev : ChangeEvent)
    (h : (triggerChangeEvent st).2 = some ev) :
    (st.mode = SelectionMode.multiple →
        ev.oldSelection = Payload.arr st.oldSelection ∧
          ev.selection = Payload.arr (selectedIdxs st.items)) ∧
      (st.mode ≠ SelectionMode.multiple →
        ev.selection = Payload.scalar (selectedIdxs st.items).head? ∧
          (st.oldSelection.length ≤ 1 →
            ev.oldSelection = Payload.scalar st.oldSelection.head?) ∧
          (1 < st.oldSelection.length →
            ev.oldSelection = Payload.arr st.oldSelection)) := by
  rw [triggerChangeEvent_some st ev h]
  refine ⟨fun hm => ?_, fun hm => ?_⟩
  · rw [if_pos hm]
    exact ⟨rfl, rfl⟩
  · rw [if_neg hm]
    refine ⟨rfl, fun hle => ?_, fun hgt => ?_⟩
    · show (if 1 < st.oldSelection.length then Payload.arr st.oldSelection
          else Payload.scalar st.oldSelection.head?) = _
      rw [if_neg (by omega)]
    · show (if 1 < st.oldSelection.length then Payload.arr st.oldSelection
          else Payload.scalar st.oldSelection.head?) = _
      rw [if_pos hgt]

/-- Counterexample to C5 as stated: running the validator in `single` mode
right after leaving `multiple` mode (two items still selected, both recorded
in `_oldSelection`) emits a change event whose `oldSelection` payload is the
previous array, not a scalar. -/
theorem masonry_change_event_payload_counterexample :
    ((validateSelection ⟨SelectionMode.single, [false, true, true], false, [1, 2]⟩
          Option.none).2.map fun ev => ev.oldSelection.isScalar) = some false ∧
      ((validateSelection ⟨SelectionMode.single, [false, true, true], false, [1, 2]⟩
          Option.none).2.map fun ev => ev.selection.isScalar) = some true := by
  constructor <;> rfl

/-- Witness for the amended C5 at a concrete emitted event. -/
theorem masonry_change_event_payload_shape_witness :
    (⟨Payload.arr [1, 2], Payload.scalar (some 0)⟩ : ChangeEvent).selection =
        Payload.scalar (selectedIdxs ([true] : Items)).head? ∧
      (⟨Payload.arr [1, 2], Payload.scalar (some 0)⟩ : ChangeEvent).oldSelection =
        Payload.arr [1, 2] :=
  have h := masonry_change_event_payload_shape
    ⟨SelectionMode.single, [true], false, [1, 2]⟩
    ⟨Payload.arr [1, 2], Payload.scalar (some 0)⟩ rfl
  ⟨(h.2 (by decide)).1, (h.2 (by decide)).2.2 (by decide)⟩

/-! ### Claim theorems: C1 (drag hysteresis) -/

theorem onItemDragMove_stay (isMatched : Bool) (itemAt : ℚ → ℚ → Option Nat)
    (children : List Nat) (phId : Nat) (rect : PlaceholderRect) (pp pos : DragPos)
    (h : isApproachingPlaceholder pos pp rect = true) :
    (onItemDragMove isMatched itemAt children (some (phId, rect)) (some pp) pos).1
      = children := by
  cases isMatched
  · rfl
  · simp [onItemDragMove, h]

theorem onItemDragMove_go (itemAt : ℚ → ℚ → Option Nat)
    (children : List Nat) (phId : Nat) (rect : PlaceholderRect) (pp pos : DragPos)
    (h : isApproachingPlaceholder pos pp rect = false) :
    (onItemDragMove true itemAt children (some (phId, rect)) (some pp) pos).1
      = match itemAt pos.left pos.top with
        | some below =>
          if below = phId then children else relocatePlaceholder children phId below
        | Option.none => children := by
  simp only [onItemDragMove, h, Bool.not_false, if_true]

/-- Counterexample to C1 as stated: the pointer moves to a position at the
same weighted distance from the placeholder center as the previous one (so
the new distance is not smaller than the old), yet the code does not relocate
the placeholder, even though a relocation target exists and relocating would
change the child list. -/
theorem masonry_drag_hysteresis_counterexample :
    ¬(weightedDistanceSq (placeholderCenterX ⟨0, 0, 2, 2⟩) (placeholderCenterY ⟨0, 0, 2, 2⟩)
          (1 : ℚ) 3 2 2 <
        weightedDistanceSq (placeholderCenterX ⟨0, 0, 2, 2⟩) (placeholderCenterY ⟨0, 0, 2, 2⟩)
          3 1 2 2) ∧
      (onItemDragMove true (fun _ _ => some 42) [7, 5, 42] (some (5, ⟨0, 0, 2, 2⟩))
          (some ⟨3, 1⟩) ⟨1, 3⟩).1 = [7, 5, 42] ∧
      relocatePlaceholder [7, 5, 42] 5 42 ≠ [7, 5, 42] := by
  have hle : weightedDistanceSq (placeholderCenterX ⟨0, 0, 2, 2⟩)
      (placeholderCenterY ⟨0, 0, 2, 2⟩) (1 : ℚ) 3 2 2 ≤
        weightedDistanceSq (placeholderCenterX ⟨0, 0, 2, 2⟩)
          (placeholderCenterY ⟨0, 0, 2, 2⟩) 3 1 2 2 := by
    norm_num [weightedDistanceSq, placeholderCenterX, placeholderCenterY]
  refine ⟨by norm_num [weightedDistanceSq, placeholderCenterX, placeholderCenterY], ?_, by decide⟩
  exact onItemDragMove_stay true (fun _ _ => some 42) [7, 5, 42] 5 ⟨0, 0, 2, 2⟩
    ⟨3, 1⟩ ⟨1, 3⟩ (decide_eq_true hle)

/-- C1 (amended): during a drag move with an active placeholder and a
recorded previous pointer position, placeholder relocation is attempted iff
the new weighted distance from the placeholder center is strictly greater
than the previous one: at a smaller or equal distance the child list is left
untouched, and at a strictly greater distance the relocation body (hit test
plus before/after insertion) runs. -/
theorem masonry_drag_hysteresis (isMatched : Bool) (itemAt : ℚ → ℚ → Option Nat)
    (children : List Nat) (phId : Nat) (rect : PlaceholderRect) (pp pos : DragPos) :
    (weightedDistanceSq (placeholderCenterX rect) (placeholderCenterY rect)
          pos.left pos.top rect.width rect.height ≤
        weightedDistanceSq (placeholderCenterX rect) (placeholderCenterY rect)
          pp.left pp.top rect.width rect.height →
      (onItemDragMove isMatched itemAt children (some (phId, rect)) (some pp) pos).1
        = children) ∧
      (weightedDistanceSq (placeholderCenterX rect) (placeholderCenterY rect)
            pp.left pp.top rect.width rect.height <
          weightedDistanceSq (placeholderCenterX rect) (placeholderCenterY rect)
            pos.left pos.top rect.width rect.height →
        isMatched = true →
        (onItemDragMove isMatched itemAt children (some (phId, rect)) (some pp) pos).1
          = match itemAt pos.left pos.top with
            | some below =>
              if below = phId then children else relocatePlaceholder children phId below
            | Option.none => children) := by
  constructor
  · intro hle
    exact onItemDragMove_stay isMatched itemAt children phId rect pp pos (decide_eq_true hle)
  · intro hlt hism
    cases hism
    exact onItemDragMove_go itemAt children phId rect pp pos
      (decide_eq_false (not_le.mpr hlt))

/-- Witness for the amended C1: at equal weighted distance the placeholder
stays; at a strictly greater distance the relocation body runs. -/
theorem masonry_drag_hysteresis_witness :
    (onItemDragMove true (fun _ _ => some 42) [7, 5, 42] (some (5, ⟨0, 0, 2, 2⟩))
        (some ⟨3, 1⟩) ⟨1, 3⟩).1 = [7, 5, 42] ∧
      (onItemDragMove true (fun _ _ => some 42) [7, 5, 42] (some (5, ⟨0, 0, 2, 2⟩))
          (some ⟨1, 1⟩) ⟨1, 5⟩).1
        = match (fun (_ _ : ℚ) => some 42) (1 : ℚ) (5 : ℚ) with
          | some below => if below = 5 then [7, 5, 42] else relocatePlaceholder [7, 5, 42] 5 below
          | Option.none => [7, 5, 42] :=
  ⟨(masonry_drag_hysteresis true (fun _ _ => some 42) [7, 5, 42] 5 ⟨0, 0, 2, 2⟩
      ⟨3, 1⟩ ⟨1, 3⟩).1
      (by norm_num [weightedDistanceSq, placeholderCenterX, placeholderCenterY]),
    (masonry_drag_hysteresis true (fun _ _ => some 42) [7, 5, 42] 5 ⟨0, 0, 2, 2⟩
      ⟨1, 1⟩ ⟨1, 5⟩).2
      (by norm_num [weightedDistanceSq, placeholderCenterX, placeholderCenterY]) rfl⟩

/-! ### Claim theorems: C7 (layout setter) -/

/-- Counterexample to C7 as stated: the empty string is not registered in the
layout registry, yet assigning it neither logs an error nor keeps the
previously active layout name: it resets `_layout` to the first registered
layout and schedules a pass. -/
theorem masonry_layout_setter_counterexample :
    (["fixed-centered", "variable"] : List String).contains "" = false ∧
      setLayout ["fixed-centered", "variable"] (some "variable") "" =
        ⟨some "fixed-centered", true, false⟩ := by
  exact ⟨rfl, rfl⟩

theorem setLayout_ne_empty_eq (registry : List String) (current : Option String)
    (value : String) (h : value ≠ "") :
    setLayout registry current value =
      (if some value = current then ⟨current, false, false⟩
      else if registry.contains value then ⟨some value, true, false⟩
      else ⟨current, false, true⟩) := by
  simp only [setLayout]
  rw [if_neg h]

/-- C7 (amended): assigning a non-empty unregistered layout name never throws:
the error is logged, `_layout` keeps its previous value and no layout is
scheduled, so the previous strategy stays in effect; assigning a registered
non-empty name makes it the active layout name; assigning the empty string
resets the name to the first registered layout. -/
theorem masonry_layout_setter_spec (registry : List String) (current : Option String)
    (value : String) :
    (value ≠ "" → value ∉ registry →
        (setLayout registry current value).layout = current ∧
          (setLayout registry current value).scheduled = false ∧
          (current ≠ some value → (setLayout registry current value).logged = true)) ∧
      (value ≠ "" → value ∈ registry →
        (setLayout registry current value).layout = some value) ∧
      (∀ r0 rest, value = "" → registry = r0 :: rest →
        (setLayout registry current value).layout = some r0) := by
  refine ⟨fun hne hmem => ?_, fun hne hmem => ?_, fun r0 rest hval hreg => ?_⟩
  · rw [setLayout_ne_empty_eq registry current value hne]
    by_cases hc : some value = current
    · rw [if_pos hc]
      exact ⟨rfl, rfl, fun hcur => absurd hc.symm hcur⟩
    · rw [if_neg hc]
      rw [if_neg fun hcon => hmem (List.elem_iff.mp hcon)]
      exact ⟨rfl, rfl, fun _ => rfl⟩
  · rw [setLayout_ne_empty_eq registry current value hne]
    by_cases hc : some value = current
    · rw [if_pos hc]
      exact hc.symm
    · rw [if_neg hc]
      have hco : registry.contains value = true := List.elem_iff.mpr hmem
      rw [if_pos hco]
  · subst hval
    subst hreg
    have hred : setLayout (r0 :: rest) current "" =
        (if some r0 = current then ⟨current, false, false⟩
        else if (r0 :: rest).contains r0 then ⟨some r0, true, false⟩
        else ⟨current, false, true⟩) := by
      simp only [setLayout, if_true, List.head?_cons]
    rw [hred]
    by_cases hc : some r0 = current
    · rw [if_pos hc]
      exact hc.symm
    · rw [if_neg hc]
      rw [if_pos (List.elem_iff.mpr (List.mem_cons_self r0 rest))]

/-- Witness for the amended C7 at concrete registries and names. -/
theorem masonry_layout_setter_spec_witness :
    ((setLayout ["fixed-centered"] (some "fixed-centered") "bogus").layout
          = some "fixed-centered" ∧
        (setLayout ["fixed-centered"] (some "fixed-centered") "bogus").scheduled = false ∧
        (setLayout ["fixed-centered"] (some "fixed-centered") "bogus").logged = true) ∧
      (setLayout ["fixed-centered"] (some "variable") "fixed-centered").layout
        = some "fixed-centered" ∧
      (setLayout ["fixed-centered"] (some "variable") "").layout = some "fixed-centered" :=
  have h := masonry_layout_setter_spec ["fixed-centered"] (some "fixed-centered") "bogus"
  have h2 := masonry_layout_setter_spec ["fixed-centered"] (some "variable") "fixed-centered"
  have h3 := masonry_layout_setter_spec ["fixed-centered"] (some "variable") ""
  ⟨⟨(h.1 (by decide) (by decide)).1, (h.1 (by decide) (by decide)).2.1,
      (h.1 (by decide) (by decide)).2.2 (by decide)⟩,
    h2.2.1 (by decide) (by decide),
    h3.2.2 "fixed-centered" [] rfl rfl⟩

/-! ### Claim theorems: C8 (drag end cleanup) -/

/-- C8: `_onItemDragEnd` always clears the per-item drag session (the
old-before reference, the placeholder reference and the last pointer
position), and when no placeholder exists it is a silent no-op: the child
list is unchanged and no order event is emitted. -/
theorem masonry_drag_end_cleanup (f : Nat → Bool) (children : List Nat) (item : Nat)
    (isMatched : Bool) (sess : DragSession) :
    (onItemDragEnd f children item isMatched sess).2.2 =
        ⟨Option.none, Option.none, Option.none⟩ ∧
      (sess.dropPlaceholder = Option.none →
        (onItemDragEnd f children item isMatched sess).1 = children ∧
          (onItemDragEnd f children item isMatched sess).2.1 = Option.none) := by
  obtain ⟨ob, ph, pp⟩ := sess
  cases isMatched <;> cases ph <;> refine ⟨rfl, fun h => ?_⟩
  · exact ⟨rfl, rfl⟩
  · simp at h
  · exact ⟨rfl, rfl⟩
  · simp at h

/-- Witness for C8: a drag end without a placeholder clears the session and
changes nothing. -/
theorem masonry_drag_end_cleanup_witness :
    (onItemDragEnd (fun _ => true) [1, 2] 1 true
          ⟨some 9, Option.none, some ⟨0, 0⟩⟩).2.2 =
        ⟨Option.none, Option.none, Option.none⟩ ∧
      (onItemDragEnd (fun _ => true) [1, 2] 1 true
          ⟨some 9, Option.none, some ⟨0, 0⟩⟩).1 = [1, 2] ∧
      (onItemDragEnd (fun _ => true) [1, 2] 1 true
          ⟨some 9, Option.none, some ⟨0, 0⟩⟩).2.1 = Option.none :=
  have h := masonry_drag_end_cleanup (fun _ => true) [1, 2] 1 true
    ⟨some 9, Option.none, some ⟨0, 0⟩⟩
  ⟨h.1, (h.2 rfl).1, (h.2 rfl).2⟩

/-! ### Claim theorems: C9 (bulk deselection) -/

theorem deselectLoop_length (marker : String) (survivor? : Option Nat) :
    ∀ (base : Nat) (l : List CollectionItem),
      (deselectLoop marker survivor? base l).length = l.length := by
  intro base l
  induction l generalizing base with
  | nil => rfl
  | cons it rest ih => simp [deselectLoop, ih]

theorem deselectLoop_getD (marker : String) (survivor? : Option Nat) :
    ∀ (l : List CollectionItem) (base j : Nat), j < l.length →
      (deselectLoop marker survivor? base l).getD j default =
        (if matchesSelectedSelector marker (l.getD j default)
              && !(survivor? == some (base + j)) then
          removeAttribute marker (l.getD j default)
        else l.getD j default) := by
  intro l
  induction l with
  | nil => intro base j hj; simp at hj
  | cons it rest ih =>
    intro base j hj
    cases j with
    | zero => simp [deselectLoop]
    | succ n =>
      have hn : n < rest.length := by simpa using hj
      have := ih (base + 1) n hn
      have harith : base + (n + 1) = base + 1 + n := by omega
      simpa [deselectLoop, harith] using this

theorem not_mem_removeAttribute (a : String) (it : CollectionItem) :
    a ∉ (removeAttribute a it).attrs := by
  intro hmem
  have h := List.mem_filter.mp hmem
  simp at h

/-- C9: `_deselectAllExcept` removes the marker attribute (the given one, or
`selected` by default) from every child matching the selected-item selector
except the designated survivor — from all of them when no survivor is given —
and leaves every other child untouched; the removal happens for matching
items with arbitrary `disabled` and `removing` flags. -/
theorem collection_deselectAllExcept_spec (arg : DeselectArg)
    (selectedAttribute : Option String) (children : List CollectionItem) (j : Nat)
    (hj : j < children.length) :
    (deselectAllExcept arg selectedAttribute children).length = children.length ∧
      (matchesSelectedSelector (deselectMarker arg selectedAttribute)
            (children.getD j default) = true →
        deselectSurvivor arg ≠ some j →
        deselectMarker arg selectedAttribute ∉
          ((deselectAllExcept arg selectedAttribute children).getD j default).attrs) ∧
      (matchesSelectedSelector (deselectMarker arg selectedAttribute)
              (children.getD j default) = false ∨
          deselectSurvivor arg = some j →
        (deselectAllExcept arg selectedAttribute children).getD j default
          = children.getD j default) := by
  refine ⟨deselectLoop_length _ _ 0 children, fun hm hs => ?_, fun hor => ?_⟩
  · unfold deselectAllExcept
    rw [deselectLoop_getD _ _ children 0 j hj]
    have hbeq : (deselectSurvivor arg == some (0 + j)) = false := by
      rw [Nat.zero_add]
      exact beq_eq_false_iff_ne.mpr hs
    rw [if_pos (by rw [hm, hbeq]; rfl)]
    exact not_mem_removeAttribute _ _
  · unfold deselectAllExcept
    rw [deselectLoop_getD _ _ children 0 j hj]
    rcases hor with hm | hs
    · rw [if_neg (by rw [hm]; simp)]
    · have hbeq : (deselectSurvivor arg == some (0 + j)) = true := by
        rw [Nat.zero_add, hs]
        exact beq_self_eq_true _
      rw [if_neg (by rw [hbeq]; simp)]

/-- Witness for C9: with survivor 0, the disabled and removing item 1 still
loses the marker, while the survivor keeps it. -/
theorem collection_deselectAllExcept_spec_witness :
    (deselectAllExcept (DeselectArg.item 0) Option.none
          [⟨true, false, false, ["selected"]⟩, ⟨true, true, true, ["selected"]⟩]).length = 2 ∧
      "selected" ∉ ((deselectAllExcept (DeselectArg.item 0) Option.none
            [⟨true, false, false, ["selected"]⟩,
              ⟨true, true, true, ["selected"]⟩]).getD 1 default).attrs ∧
      (deselectAllExcept (DeselectArg.item 0) Option.none
            [⟨true, false, false, ["selected"]⟩,
              ⟨true, true, true, ["selected"]⟩]).getD 0 default
        = (⟨true, false, false, ["selected"]⟩ : CollectionItem) :=
  have h1 := collection_deselectAllExcept_spec (DeselectArg.item 0) Option.none
    [⟨true, false, false, ["selected"]⟩, ⟨true, true, true, ["selected"]⟩] 1 (by decide)
  have h0 := collection_deselectAllExcept_spec (DeselectArg.item 0) Option.none
    [⟨true, false, false, ["selected"]⟩, ⟨true, true, true, ["selected"]⟩] 0 (by decide)
  ⟨h1.1, h1.2.1 (by decide) (by decide), h0.2.2 (Or.inr rfl)⟩

end CoralSpec
